import Mathlib

/-!
# Verification of the Edna voice-assistant pipeline core

Shallow embedding, in Lean 4, of the pure coordination logic of the Edna
repository (`src/state_machine.cpp`, `src/main.cpp`, `src/llm_llama.hpp`,
`src/tts_coqui.*`), together with proofs and refutations of the frozen
specification claims.

Strings manipulated by the C++ code are `std::string`s of bytes processed
with the `<cctype>` classifiers in the default "C" locale; they are modelled
here as `List Nat` of byte values.  PCM samples (`int16_t`) are modelled as
`Int`.  Machine arithmetic never overflows in the modelled fragments
(`size_t` counters stay far below `2^64`), so `Nat` is used for sizes.
-/

namespace Edna

/-! ## Byte-level character classification (C locale, `<cctype>`) -/

/-- `isspace` for the "C" locale on byte values: space, \t, \n, \v, \f, \r. -/
def isspaceB (c : Nat) : Bool := decide (c = 32 ∨ (9 ≤ c ∧ c ≤ 13))

/-- `isalnum` for the "C" locale on byte values: digits, upper, lower ASCII. -/
def isalnumB (c : Nat) : Bool :=
  decide ((48 ≤ c ∧ c ≤ 57) ∨ (65 ≤ c ∧ c ≤ 90) ∨ (97 ≤ c ∧ c ≤ 122))

/-- `tolower` for the "C" locale on byte values. -/
def tolowerB (c : Nat) : Nat := if 65 ≤ c ∧ c ≤ 90 then c + 32 else c

/-- Byte list of an ASCII string literal (all literals used are ASCII). -/
def toBytes (s : String) : List Nat := s.data.map Char.toNat

/-! ## `trim_ws` (main.cpp lines 48-53)

`trim_ws` advances index `a` over leading `isspace` bytes and retracts `b`
over trailing ones, returning the middle substring.  Equivalent list form:
drop the leading whitespace run, then the trailing one. -/

def trimWs (l : List Nat) : List Nat :=
  ((l.dropWhile isspaceB).reverse.dropWhile isspaceB).reverse

/-! ## `normalize` (main.cpp lines 55-76)

First pass: bytes that are alphanumeric or whitespace are lowercased, all
others are replaced by a space.  Second pass: whitespace runs collapse to a
single `' '` (the `prev_space` flag starts `true`).  Finally `trim_ws`. -/

/-- First pass of `normalize`: the per-byte map. -/
def normChar (c : Nat) : Nat :=
  if isalnumB c || isspaceB c then tolowerB c else 32

/-- Second pass of `normalize`: collapse whitespace runs, carrying the
`prev_space` flag (initially `true`). -/
def collapseGo : Bool → List Nat → List Nat
  | _, [] => []
  | prev, c :: rest =>
    if isspaceB c then
      if prev then collapseGo true rest else 32 :: collapseGo true rest
    else c :: collapseGo false rest

def normalize (l : List Nat) : List Nat :=
  trimWs (collapseGo true (l.map normChar))

/-! ## `strip_invocation` (main.cpp lines 78-105)

Normalizes the text, then tries `strip_prefix` on each alias in the listed
order; `||` short-circuits, so the first alias that is a prefix wins.  On a
match the text is replaced with the trimmed remainder of the normalized
form; otherwise the text is left unchanged (modelled by `none`). -/

def invocationList : List (List Nat) :=
  [ toBytes "hey edna", toBytes "okay edna", toBytes "ok edna",
    toBytes "edna", toBytes "etna", toBytes "ewa",
    toBytes "ed", toBytes "ed nah", toBytes "ed na" ]

/-- The `strip_prefix(p1) || strip_prefix(p2) || ...` chain: first alias
that is a prefix of `t` strips; later aliases are not tried. -/
def tryStrip (t : List Nat) : List (List Nat) → Option (List Nat)
  | [] => none
  | p :: rest =>
    if p.isPrefixOf t then some (trimWs (t.drop p.length)) else tryStrip t rest

def strip_invocation (text : List Nat) : Option (List Nat) :=
  tryStrip (normalize text) invocationList

/-! ## State machine (state_machine.cpp)

`dispatch` takes the lock, computes `transition_locked`, stores the new
state when a transition fired, and notifies the observer (logging only).
The state evolution of a dispatch sequence is therefore the fold of the
pure `transition` function below. -/

inductive SMState
  | Boot | AwaitSpeech | CapturingSpeech | Transcribing
  | Thinking | Speaking | Error | Shutdown
deriving DecidableEq, Repr

inductive SMEvent
  | Start | SpeechStart | SpeechEndQueued | TranscriptReady
  | ReplyReady | TtsDone | Stop | NoCommand | Fail
deriving DecidableEq, Repr

open SMState SMEvent

/-- `EdnaStateMachine::transition_locked` (state_machine.cpp lines 42-99):
returns the successor state, or the current state when no transition is
defined (`did_transition = false` leaves `st_` unchanged in `dispatch`). -/
def transition (cur : SMState) (ev : SMEvent) : SMState :=
  match cur, ev with
  | Boot, Start => AwaitSpeech
  | AwaitSpeech, SpeechStart => CapturingSpeech
  | CapturingSpeech, SpeechEndQueued => Transcribing
  | Transcribing, TranscriptReady => Thinking
  | Transcribing, NoCommand => AwaitSpeech
  | Thinking, ReplyReady => Speaking
  | Thinking, NoCommand => AwaitSpeech
  | Speaking, TtsDone => AwaitSpeech
  | Error, Start => AwaitSpeech
  | _, _ => cur

/-- The nine-row transition table exactly as listed by the specification. -/
def transitionTable : List (SMState × SMEvent × SMState) :=
  [ (Boot, Start, AwaitSpeech),
    (AwaitSpeech, SpeechStart, CapturingSpeech),
    (CapturingSpeech, SpeechEndQueued, Transcribing),
    (Transcribing, TranscriptReady, Thinking),
    (Transcribing, NoCommand, AwaitSpeech),
    (Thinking, ReplyReady, Speaking),
    (Thinking, NoCommand, AwaitSpeech),
    (Speaking, TtsDone, AwaitSpeech),
    (Error, Start, AwaitSpeech) ]

/-- One step of the specification's table: look up the (state, event) pair;
every pair not in the table is a no-op. -/
def tableStep (s : SMState) (e : SMEvent) : SMState :=
  match transitionTable.find? (fun r => r.1 == s && r.2.1 == e) with
  | some r => r.2.2
  | none => s

/-- State after dispatching a sequence of events from the initial state. -/
def runDispatch (evs : List SMEvent) : SMState :=
  evs.foldl transition Boot

/-- State after folding the specification table from `Boot`. -/
def runTable (evs : List SMEvent) : SMState :=
  evs.foldl tableStep Boot

/-- Adjacency relation for C9: no two consecutive whitespace bytes. -/
def noWsPair (a b : Nat) : Prop := ¬(isspaceB a = true ∧ isspaceB b = true)

/-! ## `split_sentences` (main.cpp lines 107-153)

The walk pushes each byte onto `cur` and flushes (trim, drop empty) when a
`.`, `!` or `?` is followed by whitespace or end of input, with a final
flush after the loop.  If at most one non-empty fragment results and it
exceeds 180 bytes, it is soft-wrapped: `cut = s.rfind(' ', pos + take)`
searches for the last **space byte** `' '` at an index `≤ pos + take`
(every 180 bytes), falling back to a hard cut; whitespace after a cut is
skipped, pieces are trimmed, and empties are removed. -/

def endPunct (c : Nat) : Bool := c == 46 || c == 33 || c == 63

/-- The `flush` lambda of `split_sentences`: trim, drop if empty. -/
def flushFrag (cur : List Nat) : List (List Nat) :=
  let s := trimWs cur
  if s.isEmpty then [] else [s]

/-- The character walk of `split_sentences` with accumulator `cur`
(including the final flush). -/
def sentLoop : List Nat → List Nat → List (List Nat)
  | cur, [] => flushFrag cur
  | cur, c :: rest =>
    if endPunct c && (rest.isEmpty || isspaceB (rest.headD 0)) then
      flushFrag (cur ++ [c]) ++ sentLoop [] rest
    else sentLoop (cur ++ [c]) rest

/-- `std::string::rfind(ch, upTo)` modelled on byte lists: the largest index
`i ≤ upTo` (and `i < length`) whose byte satisfies `isBrk`, searched
downward from `min upTo (length - 1)`. -/
def rfindFrom (isBrk : Nat → Bool) (s : List Nat) : Nat → Option Nat
  | 0 => if isBrk (s.getD 0 0) then some 0 else none
  | i + 1 => if isBrk (s.getD (i + 1) 0) then some (i + 1) else rfindFrom isBrk s i

def rfindIdx (isBrk : Nat → Bool) (s : List Nat) (upTo : Nat) : Option Nat :=
  if s.isEmpty then none else rfindFrom isBrk s (min upTo (s.length - 1))

/-- The soft-wrap `while (pos < s.size())` loop of `split_sentences`,
with an explicit fuel.  Each iteration strictly increases `pos` (the cut
is `> pos` by construction) and `pos` never exceeds `s.length`, so fuel
`s.length + 1` (as passed by `softWrap`) never runs out. -/
def wrapLoop (isBrk : Nat → Bool) (s : List Nat) : Nat → Nat → List (List Nat)
  | 0, _ => []
  | fuel + 1, pos =>
    if pos < s.length then
      let tk := min 180 (s.length - pos)
      let cut :=
        match rfindIdx isBrk s (pos + tk) with
        | some cu => if cu ≤ pos then pos + tk else cu
        | none => pos + tk
      trimWs ((s.drop pos).take (cut - pos)) ::
        wrapLoop isBrk s fuel (cut + ((s.drop cut).takeWhile isspaceB).length)
    else []

/-- The byte the code's `rfind(' ', ...)` searches for: the space 32 only. -/
def spaceBrk (c : Nat) : Bool := c == 32

def softWrap (isBrk : Nat → Bool) (s : List Nat) : List (List Nat) :=
  (wrapLoop isBrk s (s.length + 1) 0).filter (fun p => !p.isEmpty)

def split_sentences (l : List Nat) : List (List Nat) :=
  let out := sentLoop [] l
  if out.length ≤ 1 ∧ out ≠ [] ∧ 180 < (out.headD []).length then
    softWrap spaceBrk (out.headD [])
  else out

/-! ### Specification-worded splitter (for claim C8)

`specFrags` renders the spec sentence "emits a fragment each time a `.`,
`!`, or `?` is followed by whitespace or end-of-input" as a direct split of
the input after each such terminator (the text after the last terminator is
the final fragment); fragments are then trimmed and empties dropped.  The
spec says the single long fragment is "soft-wrapped at whitespace", hence
`softWrap isspaceB`; `splitSentencesAmended` is the same definition with
the wrap break restricted to the space byte, which is what the code does. -/

def specFrags : List Nat → List (List Nat)
  | [] => []
  | c :: rest =>
    if endPunct c && (rest.isEmpty || isspaceB (rest.headD 0)) then
      [c] :: specFrags rest
    else
      match specFrags rest with
      | [] => [[c]]
      | f :: r => (c :: f) :: r

/-- Trim every fragment, drop the empty ones. -/
def dropEmptyTrim (l : List (List Nat)) : List (List Nat) :=
  (l.map trimWs).filter (fun s => !s.isEmpty)

def splitSentencesSpec (l : List Nat) : List (List Nat) :=
  let out := dropEmptyTrim (specFrags l)
  if out.length ≤ 1 ∧ out ≠ [] ∧ 180 < (out.headD []).length then
    softWrap isspaceB (out.headD [])
  else out

def splitSentencesAmended (l : List Nat) : List (List Nat) :=
  let out := dropEmptyTrim (specFrags l)
  if out.length ≤ 1 ∧ out ≠ [] ∧ 180 < (out.headD []).length then
    softWrap spaceBrk (out.headD [])
  else out

/-- Prepend pending accumulator text onto the first fragment. -/
def consHead (cur : List Nat) : List (List Nat) → List (List Nat)
  | [] => [cur]
  | f :: r => (cur ++ f) :: r

/-- Concrete refutation input for C8: 100 `'a'` bytes, a tab (byte 9),
100 more `'a'` bytes — a single 201-byte fragment whose only whitespace
is a tab. -/
def c8CeInput : List Nat := List.replicate 100 97 ++ 9 :: List.replicate 100 97

/-! ## Speech stage: the brain thread's TTS loop (main.cpp lines 294-327)

For each part of `split_sentences(reply)` the loop trims the chunk, skips
it when empty, calls `tts.speak(chunk)` and — on failure — logs and
**breaks** out of the loop.  `TtsDone` is dispatched once after the block,
unconditionally.  `speak` is modelled as a pure outcome oracle; the synth
worker and `aplay` both report failure through its `false` result. -/

/-- The chunk loop: returns the chunks on which `speak` was invoked, in
order (the failing chunk, if any, is last — the `break`). -/
def ttsAttempt (speak : List Nat → Bool) : List (List Nat) → List (List Nat)
  | [] => []
  | p :: rest =>
    let chunk := trimWs p
    if chunk.isEmpty then ttsAttempt speak rest
    else if speak chunk then chunk :: ttsAttempt speak rest
    else [chunk]

/-- One turn of the Speech stage: the attempted chunks and the dispatched
events (exactly one `TtsDone`, after the loop, regardless of failures). -/
def speechStage (enabled : Bool) (speak : List Nat → Bool) (reply : List Nat) :
    List (List Nat) × List SMEvent :=
  (if enabled then ttsAttempt speak (split_sentences reply) else [],
   [SMEvent.TtsDone])

/-- Specification-side description of the amended behavior: chunks up to
and including the first failing one. -/
def takeThroughFail (speak : List Nat → Bool) : List (List Nat) → List (List Nat)
  | [] => []
  | c :: rest => if speak c then c :: takeThroughFail speak rest else [c]

/-! ## Audio capture loop + VAD segmenter (main.cpp lines 437-530)

One iteration of the `while (g_running)` body after a full frame was read:
the loop reads a state snapshot `st`, arms the cooldown on the transition
out of `Speaking`, gates (resetting every segmentation accumulator and
clearing the utterance queue) while `Speaking` or cooling down, otherwise
updates the pre-roll ring, runs the VAD hysteresis and, on the stop
trigger, finalizes: utterances of at least 0.20 s (3200 samples at 16 kHz;
`secs >= 0.20` on IEEE doubles is exact at this threshold) replace the
queue contents, shorter ones are dropped.

The state snapshot `st` is an iteration input: other threads may move the
machine between iterations.  Only `st = Speaking` is ever consulted. -/

/-- 20 ms of 16 kHz mono audio. -/
def frame_samples : Nat := 320

/-- 15 frames (300 ms) of pre-roll. -/
def max_preroll_samples : Nat := 15 * frame_samples

/-- `ceil(600 / 20)` frames of post-speaking cooldown. -/
def cooldown_frames : Nat := (600 + 20 - 1) / 20

def start_trigger : Nat := 3
def stop_trigger : Nat := 20

/-- 0.20 s at 16 kHz: the enqueue threshold in samples. -/
def min_utt_samples : Nat := 3200

/-- Capture-side mutable state of the audio loop, including the utterance
queue `audio_q` (the only queue the loop touches). -/
structure MicState where
  in_speech : Bool
  voiced_run : Nat
  unvoiced_run : Nat
  utterance : List Int
  preroll : List Int
  ignore_frames : Nat
  last_was_speaking : Bool
  audio_q : List (List Int)
deriving DecidableEq, Repr

/-- One audio-loop iteration: new capture state, events dispatched during
the iteration, and the utterance enqueued by it (if any). -/
def loop_iter (ms : MicState) (st : SMState) (frame : List Int) (vad : Bool) :
    MicState × List SMEvent × Option (List Int) :=
  let ignore0 : Nat :=
    if ms.last_was_speaking = true ∧ st ≠ SMState.Speaking then cooldown_frames
    else ms.ignore_frames
  if st = SMState.Speaking ∨ 0 < ignore0 then
    ({ in_speech := false
       voiced_run := 0
       unvoiced_run := 0
       utterance := []
       preroll := []
       ignore_frames := ignore0 - (if 0 < ignore0 then 1 else 0)
       last_was_speaking := decide (st = SMState.Speaking)
       audio_q := [] },
     [], none)
  else
    let preroll1 := ms.preroll ++ frame
    let preroll2 :=
      if max_preroll_samples < preroll1.length then
        preroll1.drop (preroll1.length - max_preroll_samples)
      else preroll1
    if ms.in_speech = false then
      let vr := if vad = true then ms.voiced_run + 1 else 0
      if start_trigger ≤ vr then
        ({ in_speech := true
           voiced_run := 0
           unvoiced_run := 0
           utterance := preroll2
           preroll := preroll2
           ignore_frames := ignore0
           last_was_speaking := decide (st = SMState.Speaking)
           audio_q := ms.audio_q },
         [SMEvent.SpeechStart], none)
      else
        ({ ms with
            voiced_run := vr
            preroll := preroll2
            ignore_frames := ignore0
            last_was_speaking := decide (st = SMState.Speaking) },
         [], none)
    else
      let utt := ms.utterance ++ frame
      let ur := if vad = false then ms.unvoiced_run + 1 else 0
      if stop_trigger ≤ ur then
        ({ in_speech := false
           voiced_run := ms.voiced_run
           unvoiced_run := 0
           utterance := []
           preroll := preroll2
           ignore_frames := ignore0
           last_was_speaking := decide (st = SMState.Speaking)
           audio_q := if min_utt_samples ≤ utt.length then [utt] else ms.audio_q },
         [SMEvent.SpeechEndQueued],
         if min_utt_samples ≤ utt.length then some utt else none)
      else
        ({ ms with
            utterance := utt
            unvoiced_run := ur
            preroll := preroll2
            ignore_frames := ignore0
            last_was_speaking := decide (st = SMState.Speaking) },
         [], none)

/-- Fold of the loop over a trace of (state snapshot, frame, VAD verdict)
iteration inputs, collecting the enqueued utterances. -/
def runLoop : List (SMState × List Int × Bool) → MicState → MicState × List (List Int)
  | [], ms => (ms, [])
  | (st, frame, vad) :: rest, ms =>
    let r := loop_iter ms st frame vad
    let rr := runLoop rest r.1
    (rr.1, (match r.2.2 with | some u => [u] | none => []) ++ rr.2)

/-- Loop-entry values of the capture state (main.cpp lines 413-433). -/
def initMic : MicState :=
  { in_speech := false, voiced_run := 0, unvoiced_run := 0, utterance := [],
    preroll := [], ignore_frames := 0, last_was_speaking := false, audio_q := [] }

/-- Capture state during `Thinking` with 19 consecutive unvoiced frames and
a 3200-sample utterance in progress: the very next silent frame finalizes
and **enqueues** (reachable: the mic gate does not cover `Thinking`, so
speech detected while the brain thinks is segmented normally, spec §5). -/
def c2CeState : MicState :=
  { in_speech := true, voiced_run := 0, unvoiced_run := 19,
    utterance := List.replicate 3200 (0 : Int), preroll := [],
    ignore_frames := 0, last_was_speaking := false, audio_q := [] }

/-! ## Concrete traces for claim C4

A 320-sample zero frame; the VAD verdict is a separate iteration input, so
zero samples with `vad = true` model a voiced frame. -/

def zf : List Int := List.replicate 320 0

/-- An idle capture state with five cooldown frames remaining. -/
def c2WitState : MicState :=
  { in_speech := false
    voiced_run := 0
    unvoiced_run := 0
    utterance := []
    preroll := []
    ignore_frames := 5
    last_was_speaking := true
    audio_q := [] }

/-- 3 voiced frames (start trigger), 520 more voiced frames, then the
20-frame stop trigger: a continuous 10.86 s utterance.  The snapshot is
`AwaitSpeech` throughout (only `Speaking` is ever consulted by the loop). -/
def c4Trace : List (SMState × List Int × Bool) :=
  List.replicate 3 (SMState.AwaitSpeech, zf, true)
    ++ (List.replicate 520 (SMState.AwaitSpeech, zf, true)
    ++ (List.replicate 19 (SMState.AwaitSpeech, zf, false)
    ++ [(SMState.AwaitSpeech, zf, false)]))

/-- The capture state reached by folding the audio loop over a trace of
iteration inputs from start-up. -/
def stateAt (tr : List (SMState × List Int × Bool)) : MicState :=
  (runLoop tr initMic).1

/-! ## The utterance queue's atomic operations (claim C5)

All accesses to `audio_q` happen under the mutex `q_m`, so every
interleaving of the audio loop and the ASR worker is a sequence of these
three atomic operations. -/

inductive QOp
  /-- Producer enqueue (main.cpp 519-522): `audio_q.clear()` then
  `emplace_back` — newest wins, capacity one. -/
  | enq (u : List Int)
  /-- Consumer take (main.cpp 340-342): move `back()`, then `clear()`. -/
  | take
  /-- Mic-gate clear (main.cpp 468-469). -/
  | gateClear

def qApply (q : List (List Int)) : QOp → List (List Int)
  | QOp.enq u => [u]
  | QOp.take => []
  | QOp.gateClear => []

/-! ## ASR stage (main.cpp lines 331-392, llm_llama.hpp lines 195-236)

`transcribe_16k_mono_s16` returns the empty string for empty input or a
non-zero `whisper_full` return; otherwise it concatenates the segment
texts, trims, and blanks the `"[BLANK_AUDIO]"` sentinel.  The ASR worker
then re-trims, dispatches `NoCommand("blank audio")` for short or sentinel
transcripts, applies invocation stripping, and enqueues a command only for
a matched invocation with a non-empty remainder. -/

def blankSentinel : List Nat := toBytes "[BLANK_AUDIO]"

/-- `WhisperASR::transcribe_16k_mono_s16` after the opaque `whisper_full`
call returned `rc` and the segment texts `segs` (the `!impl_`/`!ctx` guards
never fire after a successful construction). -/
def postTranscribe (pcm : List Int) (rc : Int) (segs : List (List Nat)) : List Nat :=
  if pcm = [] then []
  else if rc ≠ 0 then []
  else
    let out := trimWs segs.flatten
    if out = blankSentinel then [] else out

/-- Outcome of one ASR-worker item after transcription produced `txtIn`. -/
inductive AsrOutcome
  | noCommand (note : String)
  | command (cmd : List Nat)
deriving DecidableEq, Repr

def asrStage (txtIn : List Nat) : AsrOutcome :=
  let txt := trimWs txtIn
  if txt.length < 2 ∨ txt = blankSentinel then AsrOutcome.noCommand "blank audio"
  else
    match strip_invocation txt with
    | none => AsrOutcome.noCommand "ignored transcript"
    | some c =>
      let cmd := trimWs c
      if cmd = [] then AsrOutcome.noCommand "invocation only"
      else AsrOutcome.command cmd

/-- What the outcome pushes onto the command queue. -/
def asrEnqueues : AsrOutcome → List (List Nat)
  | AsrOutcome.command c => [c]
  | AsrOutcome.noCommand _ => []

/-! ## Theorems -/

theorem transition_eq_tableStep : ∀ s e, transition s e = tableStep s e := by
  intro s e
  cases s <;> cases e <;> rfl

/-- **C1.** For every finite event sequence, the state reached by the code's
`dispatch` fold from `Boot` equals the fold of the nine-row specification
table, whose unlisted (state, event) pairs are no-ops. -/
theorem c1_dispatch_follows_table :
    ∀ evs : List SMEvent, runDispatch evs = runTable evs := by
  have h : transition = tableStep := funext fun s => funext fun e =>
    transition_eq_tableStep s e
  intro evs
  unfold runDispatch runTable
  rw [h]

/-- Helper invariant for C10: no event can move a non-Error, non-Shutdown
state into `Error` or `Shutdown`. -/
theorem transition_no_error :
    ∀ s e, s ≠ Error → s ≠ Shutdown →
      transition s e ≠ Error ∧ transition s e ≠ Shutdown := by
  intro s e
  cases s <;> cases e <;> simp [transition]

theorem runDispatch_no_error :
    ∀ evs : List SMEvent, runDispatch evs ≠ Error ∧ runDispatch evs ≠ Shutdown := by
  have aux : ∀ (evs : List SMEvent) (s : SMState), s ≠ Error → s ≠ Shutdown →
      evs.foldl transition s ≠ Error ∧ evs.foldl transition s ≠ Shutdown := by
    intro evs
    induction evs with
    | nil => intro s h1 h2; exact ⟨h1, h2⟩
    | cons e rest ih =>
      intro s h1 h2
      have := transition_no_error s e h1 h2
      exact ih (transition s e) this.1 this.2
  intro evs
  exact aux evs Boot (by decide) (by decide)

/-! ## Idempotence of `normalize` (claim C9) -/

theorem isspaceB_tolowerB (c : Nat) : isspaceB (tolowerB c) = isspaceB c := by
  simp only [tolowerB, isspaceB]
  split
  · next h => simp only [decide_eq_decide]; omega
  · rfl

theorem isalnumB_tolowerB (c : Nat) : isalnumB (tolowerB c) = isalnumB c := by
  simp only [tolowerB, isalnumB]
  split
  · next h => simp only [decide_eq_decide]; omega
  · rfl

theorem tolowerB_tolowerB (c : Nat) : tolowerB (tolowerB c) = tolowerB c := by
  simp only [tolowerB]
  split
  · next h => rw [if_neg (by omega)]
  · rfl

/-- A non-whitespace output byte of `normChar` is a fixed point of
`normChar` (it is a lowercase alphanumeric byte). -/
theorem normChar_fix (x : Nat) (h : isspaceB (normChar x) = false) :
    normChar (normChar x) = normChar x := by
  by_cases hb : (isalnumB x || isspaceB x) = true
  · have hx : normChar x = tolowerB x := by unfold normChar; rw [if_pos hb]
    rw [hx] at h ⊢
    rw [isspaceB_tolowerB] at h
    have hal : isalnumB x = true := by
      rcases Bool.or_eq_true_iff.mp hb with h' | h'
      · exact h'
      · rw [h'] at h; cases h
    have hstep : normChar (tolowerB x) = tolowerB (tolowerB x) := by
      unfold normChar
      rw [if_pos (by rw [isalnumB_tolowerB, hal]; rfl)]
    rw [hstep, tolowerB_tolowerB]
  · have hx : normChar x = 32 := by unfold normChar; rw [if_neg hb]
    rw [hx] at h
    exact absurd h (by decide)

theorem normChar_32 : normChar 32 = 32 := by decide

/-- Every byte of a collapsed list is the literal space 32, or a
non-whitespace byte of the input. -/
theorem mem_collapseGo {c : Nat} :
    ∀ (l : List Nat) (prev : Bool), c ∈ collapseGo prev l →
      c = 32 ∨ (c ∈ l ∧ isspaceB c = false) := by
  intro l
  induction l with
  | nil => intro prev h; cases h
  | cons a rest ih =>
    intro prev h
    unfold collapseGo at h
    by_cases ha : isspaceB a = true
    · rw [if_pos ha] at h
      rcases prev with _ | _
      · simp only [Bool.false_eq_true, if_false] at h
        rcases List.mem_cons.mp h with h' | h'
        · exact Or.inl h'
        · rcases ih true h' with h'' | h''
          · exact Or.inl h''
          · exact Or.inr ⟨List.mem_cons_of_mem _ h''.1, h''.2⟩
      · simp only [if_true] at h
        rcases ih true h with h'' | h''
        · exact Or.inl h''
        · exact Or.inr ⟨List.mem_cons_of_mem _ h''.1, h''.2⟩
    · rw [if_neg ha] at h
      rcases List.mem_cons.mp h with h' | h'
      · subst h'; exact Or.inr ⟨List.mem_cons_self _ _, Bool.not_eq_true _ ▸ ha⟩
      · rcases ih false h' with h'' | h''
        · exact Or.inl h''
        · exact Or.inr ⟨List.mem_cons_of_mem _ h''.1, h''.2⟩

/-- The head of a `collapseGo true` output is never whitespace. -/
theorem head_collapseGo_true {c : Nat} :
    ∀ l : List Nat, (collapseGo true l).head? = some c → isspaceB c = false := by
  intro l
  induction l with
  | nil => intro h; cases h
  | cons a rest ih =>
    intro h
    unfold collapseGo at h
    by_cases ha : isspaceB a = true
    · rw [if_pos ha, if_pos rfl] at h; exact ih h
    · rw [if_neg ha] at h
      simp only [List.head?_cons, Option.some.injEq] at h
      subst h; exact Bool.not_eq_true _ ▸ ha

theorem chain_collapseGo :
    ∀ (l : List Nat) (prev : Bool), List.Chain' noWsPair (collapseGo prev l) := by
  intro l
  induction l with
  | nil => intro prev; simp [collapseGo]
  | cons a rest ih =>
    intro prev
    unfold collapseGo
    by_cases ha : isspaceB a = true
    · rw [if_pos ha]
      rcases prev with _ | _
      · simp only [Bool.false_eq_true, if_false]
        refine List.chain'_cons'.mpr ⟨?_, ih true⟩
        intro b hb
        have := head_collapseGo_true _ hb
        exact fun hc => by rw [this] at hc; cases hc.2
      · simp only [if_true]; exact ih true
    · rw [if_neg ha]
      refine List.chain'_cons'.mpr ⟨?_, ih false⟩
      intro b _
      exact fun hc => by rw [hc.1] at ha; exact ha rfl

/-- `trim_ws` returns a contiguous infix of its argument. -/
theorem trimWs_contiguous (l : List Nat) : trimWs l <:+: l := by
  unfold trimWs
  have h1 : l.dropWhile isspaceB <:+ l := List.dropWhile_suffix _
  have h2 : (l.dropWhile isspaceB).reverse.dropWhile isspaceB <:+
      (l.dropWhile isspaceB).reverse := List.dropWhile_suffix _
  have h3 : ((l.dropWhile isspaceB).reverse.dropWhile isspaceB).reverse <+:
      l.dropWhile isspaceB := by
    apply List.reverse_suffix.mp
    rw [List.reverse_reverse]
    exact h2
  have h4 : trimWs l <:+: l.dropWhile isspaceB := List.IsPrefix.isInfix h3
  have h5 : l.dropWhile isspaceB <:+: l := List.IsSuffix.isInfix h1
  exact h4.trans h5

theorem mem_trimWs {c : Nat} {l : List Nat} (h : c ∈ trimWs l) : c ∈ l :=
  (trimWs_contiguous l).subset h

theorem head_dropWhile {p : Nat → Bool} {c : Nat} :
    ∀ l : List Nat, (l.dropWhile p).head? = some c → p c = false := by
  intro l
  induction l with
  | nil => intro h; cases h
  | cons a rest ih =>
    intro h
    rw [List.dropWhile_cons] at h
    split at h
    · exact ih h
    · next hp =>
      simp only [List.head?_cons, Option.some.injEq] at h
      subst h; exact Bool.not_eq_true _ ▸ hp

theorem dropWhile_eq_self_of_head {p : Nat → Bool} :
    ∀ l : List Nat, (∀ c, l.head? = some c → p c = false) → l.dropWhile p = l := by
  intro l h
  cases l with
  | nil => rfl
  | cons a rest =>
    rw [List.dropWhile_cons, if_neg (by rw [h a rfl]; simp)]

/-- `trim_ws` is the identity on lists with non-whitespace head and last. -/
theorem trimWs_eq_self {l : List Nat}
    (hh : ∀ c, l.head? = some c → isspaceB c = false)
    (hl : ∀ c, l.getLast? = some c → isspaceB c = false) : trimWs l = l := by
  unfold trimWs
  rw [dropWhile_eq_self_of_head l hh]
  rw [dropWhile_eq_self_of_head l.reverse (by
    intro c hc
    rw [List.head?_reverse] at hc
    exact hl c hc)]
  exact List.reverse_reverse l

theorem head_trimWs {c : Nat} {l : List Nat} (h : (trimWs l).head? = some c) :
    isspaceB c = false := by
  have hpre : ((l.dropWhile isspaceB).reverse.dropWhile isspaceB).reverse <+:
      l.dropWhile isspaceB := by
    have h2 : (l.dropWhile isspaceB).reverse.dropWhile isspaceB <:+
        (l.dropWhile isspaceB).reverse := List.dropWhile_suffix _
    apply List.reverse_suffix.mp
    rw [List.reverse_reverse]
    exact h2
  obtain ⟨t, ht⟩ := hpre
  unfold trimWs at h
  have : (l.dropWhile isspaceB).head? = some c := by
    rw [← ht]
    cases h' : ((l.dropWhile isspaceB).reverse.dropWhile isspaceB).reverse with
    | nil => rw [h'] at h; cases h
    | cons x xs =>
      rw [h'] at h
      simp only [List.head?_cons, Option.some.injEq] at h
      subst h
      simp
  exact head_dropWhile l this

theorem getLast_trimWs {c : Nat} {l : List Nat} (h : (trimWs l).getLast? = some c) :
    isspaceB c = false := by
  unfold trimWs at h
  rw [List.getLast?_reverse] at h
  exact head_dropWhile _ h

theorem map_id_on {f : Nat → Nat} :
    ∀ l : List Nat, (∀ c ∈ l, f c = c) → l.map f = l := by
  intro l
  induction l with
  | nil => intro _; rfl
  | cons a rest ih =>
    intro h
    rw [List.map_cons, h a (List.mem_cons_self _ _),
      ih (fun c hc => h c (List.mem_cons_of_mem _ hc))]

/-- Every byte of `normalize l` is a fixed point of `normChar`. -/
theorem normalize_mem_fix {l : List Nat} :
    ∀ c ∈ normalize l, normChar c = c := by
  intro c hc
  have hc' : c ∈ collapseGo true (l.map normChar) := mem_trimWs hc
  rcases mem_collapseGo _ _ hc' with h32 | ⟨hmem, hsp⟩
  · rw [h32]; exact normChar_32
  · obtain ⟨x, _, hx⟩ := List.mem_map.mp hmem
    subst hx
    exact normChar_fix x hsp

/-- Whitespace bytes of `normalize l` are the literal space 32. -/
theorem normalize_space_32 {l : List Nat} :
    ∀ c ∈ normalize l, isspaceB c = true → c = 32 := by
  intro c hc hsp
  rcases mem_collapseGo _ _ (mem_trimWs hc) with h32 | ⟨_, hsp'⟩
  · exact h32
  · rw [hsp] at hsp'; cases hsp'

theorem chain_normalize (l : List Nat) : List.Chain' noWsPair (normalize l) :=
  List.Chain'.infix (chain_collapseGo (l.map normChar) true) (trimWs_contiguous _)

/-- `collapseGo` is the identity on already-collapsed lists. -/
theorem collapseGo_id :
    ∀ m : List Nat, List.Chain' noWsPair m →
      (∀ c ∈ m, isspaceB c = true → c = 32) →
      collapseGo false m = m ∧
      ((∀ c, m.head? = some c → isspaceB c = false) → collapseGo true m = m) := by
  intro m
  induction m with
  | nil => intro _ _; exact ⟨rfl, fun _ => rfl⟩
  | cons a rest ih =>
    intro hch hsp
    have hch' : List.Chain' noWsPair rest := (List.chain'_cons'.mp hch).2
    have hrel : ∀ b ∈ rest.head?, noWsPair a b := (List.chain'_cons'.mp hch).1
    have hsp' : ∀ c ∈ rest, isspaceB c = true → c = 32 :=
      fun c hc => hsp c (List.mem_cons_of_mem _ hc)
    have ihr := ih hch' hsp'
    constructor
    · unfold collapseGo
      by_cases ha : isspaceB a = true
      · rw [if_pos ha]
        simp only [Bool.false_eq_true, if_false]
        have ha32 : a = 32 := hsp a (List.mem_cons_self _ _) ha
        have hrest : collapseGo true rest = rest := by
          refine ihr.2 ?_
          intro c hc
          have := hrel c hc
          by_contra hb
          exact this ⟨ha, Bool.not_eq_false _ ▸ hb⟩
        rw [hrest, ha32]
      · rw [if_neg ha, ihr.1]
    · intro hhead
      have ha : isspaceB a = false := hhead a rfl
      unfold collapseGo
      rw [if_neg (by rw [ha]; simp), ihr.1]

/-- **C9.** `normalize` (main.cpp lines 55-76) is idempotent:
`normalize (normalize s) = normalize s` for every byte string `s`. -/
theorem c9_normalize_idempotent :
    ∀ l : List Nat, normalize (normalize l) = normalize l := by
  intro l
  conv_lhs => rw [normalize]
  rw [map_id_on (normalize l) (normalize_mem_fix)]
  have hcoll : collapseGo true (normalize l) = normalize l :=
    (collapseGo_id (normalize l) (chain_normalize l) (normalize_space_32)).2
      (fun c hc => head_trimWs hc)
  rw [hcoll]
  exact trimWs_eq_self (fun c hc => head_trimWs hc) (fun c hc => getLast_trimWs hc)

/-! ## Claim C3: invocation stripping is first-match, not longest-match

The code comment (main.cpp line 89) documents the intent "Strip longer
prefixes first", but the alias `"ed"` is tried before `"ed nah"` and
`"ed na"`, so for any normalized transcript beginning with `"ed na"` the
two-byte alias wins and the longer aliases are dead code. -/

/-- **C3** (code bug witness): on the transcript `"ed nah hello"` the code
strips the first-matching alias `"ed"`, leaving `"nah hello"`, although the
longer alias `"ed nah"` from the list also matches and stripping it (as the
claim and the code's own comment require) would leave `"hello"`. -/
theorem c3_first_match_not_longest :
    strip_invocation (toBytes "ed nah hello") = some (toBytes "nah hello") ∧
    (toBytes "ed nah").isPrefixOf (normalize (toBytes "ed nah hello")) = true ∧
    toBytes "ed nah" ∈ invocationList ∧
    trimWs ((normalize (toBytes "ed nah hello")).drop (toBytes "ed nah").length)
      = toBytes "hello" ∧
    toBytes "nah hello" ≠ toBytes "hello" := by
  refine ⟨by decide, by decide, by decide, by decide, by decide⟩

theorem dropEmptyTrim_cons (a : List Nat) (x : List (List Nat)) :
    dropEmptyTrim (a :: x) = flushFrag a ++ dropEmptyTrim x := by
  by_cases h : (trimWs a).isEmpty <;>
    simp [dropEmptyTrim, flushFrag, List.filter_cons, h]

theorem dropEmptyTrim_consHead_nil (x : List (List Nat)) :
    dropEmptyTrim (consHead [] x) = dropEmptyTrim x := by
  cases x with
  | nil => simp [consHead, dropEmptyTrim, trimWs]
  | cons f r => simp [consHead]

/-- The code's walk produces exactly the trimmed, empty-dropped fragments
of the specification split (generalized over the pending accumulator). -/
theorem sentLoop_eq :
    ∀ (l : List Nat) (cur : List Nat),
      sentLoop cur l = dropEmptyTrim (consHead cur (specFrags l)) := by
  intro l
  induction l with
  | nil =>
    intro cur
    show flushFrag cur = dropEmptyTrim [cur]
    rw [dropEmptyTrim_cons]
    simp [dropEmptyTrim]
  | cons c rest ih =>
    intro cur
    by_cases hc : (endPunct c && (rest.isEmpty || isspaceB (rest.headD 0))) = true
    · have e1 : sentLoop cur (c :: rest) = flushFrag (cur ++ [c]) ++ sentLoop [] rest := by
        simp only [sentLoop]; rw [if_pos hc]
      have e2 : specFrags (c :: rest) = [c] :: specFrags rest := by
        simp only [specFrags]; rw [if_pos hc]
      rw [e1, e2, ih [], dropEmptyTrim_consHead_nil]
      show flushFrag (cur ++ [c]) ++ dropEmptyTrim (specFrags rest)
          = dropEmptyTrim ((cur ++ [c]) :: specFrags rest)
      rw [dropEmptyTrim_cons]
    · have e1 : sentLoop cur (c :: rest) = sentLoop (cur ++ [c]) rest := by
        simp only [sentLoop]; rw [if_neg hc]
      have e2 : specFrags (c :: rest)
          = (match specFrags rest with
             | [] => [[c]]
             | f :: r => (c :: f) :: r) := by
        simp only [specFrags]; rw [if_neg hc]
      rw [e1, ih (cur ++ [c]), e2]
      cases hfr : specFrags rest with
      | nil => simp [consHead]
      | cons f r => simp [consHead]

theorem sentLoop_nil_eq (l : List Nat) :
    sentLoop [] l = dropEmptyTrim (specFrags l) := by
  rw [sentLoop_eq l [], dropEmptyTrim_consHead_nil]

set_option maxRecDepth 4000 in
/-- **C8** (counterexample): the code soft-wraps only at the space byte
`' '`, not at arbitrary whitespace: on a 201-byte fragment whose only
whitespace is a tab at index 100, the code hard-cuts at byte 180 while the
claimed wrap "at whitespace at or before every 180th character" cuts at
the tab. -/
theorem c8_counterexample :
    split_sentences c8CeInput ≠ splitSentencesSpec c8CeInput := by decide

/-- **C8** (amended): the splitter emits a fragment exactly at each `.`,
`!`, `?` followed by whitespace or end-of-input (plus the trailing text),
trims fragments and drops empties; a single resulting fragment longer than
180 bytes is soft-wrapped at a **space byte** at or before every 180th
byte; `"The sky is blue. Usually."` splits into exactly the two claimed
chunks. -/
theorem c8_amended_splitter :
    (∀ l : List Nat, split_sentences l = splitSentencesAmended l) ∧
    split_sentences (toBytes "The sky is blue. Usually.")
      = [toBytes "The sky is blue.", toBytes "Usually."] := by
  constructor
  · intro l
    unfold split_sentences splitSentencesAmended
    rw [sentLoop_nil_eq]
  · decide

/-- **C7** (counterexample): with a failing synthesizer and the two-chunk
reply `"The sky is blue. Usually."`, only the first chunk is ever
attempted — the loop `break`s instead of continuing to the next chunk —
though exactly one `TtsDone` is still dispatched. -/
theorem c7_counterexample :
    (speechStage true (fun _ => false) (toBytes "The sky is blue. Usually.")).1
      = [toBytes "The sky is blue."] ∧
    dropEmptyTrim (split_sentences (toBytes "The sky is blue. Usually."))
      = [toBytes "The sky is blue.", toBytes "Usually."] ∧
    (speechStage true (fun _ => false) (toBytes "The sky is blue. Usually.")).2
      = [SMEvent.TtsDone] := by
  refine ⟨by decide, by decide, rfl⟩

theorem ttsAttempt_eq (speak : List Nat → Bool) :
    ∀ parts : List (List Nat),
      ttsAttempt speak parts = takeThroughFail speak (dropEmptyTrim parts) := by
  intro parts
  induction parts with
  | nil => rfl
  | cons p rest ih =>
    by_cases h : (trimWs p).isEmpty
    · simp [ttsAttempt, dropEmptyTrim, List.filter_cons, h] at ih ⊢
      exact ih
    · by_cases hs : speak (trimWs p) = true
      · simp [ttsAttempt, dropEmptyTrim, List.filter_cons, h, hs, takeThroughFail] at ih ⊢
        exact ih
      · simp [ttsAttempt, dropEmptyTrim, List.filter_cons, h, hs, takeThroughFail]

/-- **C7** (amended): when a synthesis or playback chunk fails the Speech
stage logs the failure and abandons the remaining chunks (the attempted
chunks are exactly the non-empty trimmed chunks up to and including the
first failing one), and it still dispatches exactly one `TtsDone`
regardless of success; when synthesis is disabled no chunk is attempted
and `TtsDone` is still dispatched once. -/
theorem c7_amended_break_and_ttsdone :
    ∀ (speak : List Nat → Bool) (reply : List Nat),
      speechStage true speak reply
        = (takeThroughFail speak (dropEmptyTrim (split_sentences reply)),
           [SMEvent.TtsDone]) ∧
      speechStage false speak reply = ([], [SMEvent.TtsDone]) := by
  intro speak reply
  constructor
  · unfold speechStage
    rw [if_pos rfl, ttsAttempt_eq]
  · rfl

theorem c2_ce_eval :
    loop_iter c2CeState SMState.Thinking [] false
      = ({ in_speech := false
           voiced_run := 0
           unvoiced_run := 0
           utterance := []
           preroll := []
           ignore_frames := 0
           last_was_speaking := false
           audio_q := [List.replicate 3200 (0 : Int)] },
         [SMEvent.SpeechEndQueued], some (List.replicate 3200 (0 : Int))) := by
  have hlast : c2CeState.last_was_speaking = false := rfl
  have hin : c2CeState.in_speech = true := rfl
  have hur : c2CeState.unvoiced_run = 19 := rfl
  have hutt : c2CeState.utterance = List.replicate 3200 (0 : Int) := rfl
  have hpre : c2CeState.preroll = [] := rfl
  have hign : c2CeState.ignore_frames = 0 := rfl
  have hvr : c2CeState.voiced_run = 0 := rfl
  have hne : ¬(SMState.Thinking = SMState.Speaking) := by decide
  have hdec : decide (SMState.Thinking = SMState.Speaking) = false := by decide
  simp only [loop_iter, hlast, hin, hur, hutt, hpre, hign, hvr, hne, hdec,
    List.append_nil, List.nil_append, List.length_replicate]
  norm_num [min_utt_samples, max_preroll_samples, stop_trigger, cooldown_frames]

/-- **C2** (counterexample): on an iteration whose phase snapshot is
`Thinking` (cooldown zero), the captured frame is *not* discarded: the
segmenter finalizes and the utterance queue holds one utterance at the end
of the iteration, contradicting the claimed gating of
Transcribing/Thinking/Speaking. -/
theorem c2_counterexample :
    (loop_iter c2CeState SMState.Thinking [] false).1.audio_q
      = [List.replicate 3200 (0 : Int)] ∧
    (loop_iter c2CeState SMState.Thinking [] false).2.2
      = some (List.replicate 3200 (0 : Int)) ∧
    (loop_iter c2CeState SMState.Thinking [] false).1.audio_q ≠ [] := by
  refine ⟨by rw [c2_ce_eval], by rw [c2_ce_eval],
    by rw [c2_ce_eval]; exact List.cons_ne_nil _ _⟩

/-- **C2** (amended): on every iteration whose phase snapshot is `Speaking`
or whose cooldown counter is non-zero, the frame is discarded — the
in-speech flag, voiced run, unvoiced run, utterance buffer and pre-roll
buffer are all reset — and the utterance queue is empty at the end of the
iteration, with nothing enqueued and no event dispatched.  (The command
queue is never touched by the audio loop and is not covered.) -/
theorem c2_amended_gate (ms : MicState) (st : SMState) (frame : List Int)
    (vad : Bool) (h : st = SMState.Speaking ∨ 0 < ms.ignore_frames) :
    (loop_iter ms st frame vad).1.in_speech = false ∧
    (loop_iter ms st frame vad).1.voiced_run = 0 ∧
    (loop_iter ms st frame vad).1.unvoiced_run = 0 ∧
    (loop_iter ms st frame vad).1.utterance = [] ∧
    (loop_iter ms st frame vad).1.preroll = [] ∧
    (loop_iter ms st frame vad).1.audio_q = [] ∧
    (loop_iter ms st frame vad).2.1 = [] ∧
    (loop_iter ms st frame vad).2.2 = none := by
  have hgate : st = SMState.Speaking ∨
      0 < (if ms.last_was_speaking = true ∧ st ≠ SMState.Speaking
           then cooldown_frames else ms.ignore_frames) := by
    rcases h with h | h
    · exact Or.inl h
    · right
      split
      · decide
      · exact h
  simp only [loop_iter]
  rw [if_pos hgate]
  exact ⟨rfl, rfl, rfl, rfl, rfl, rfl, rfl, rfl⟩

theorem runLoop_append (t1 t2 : List (SMState × List Int × Bool)) :
    ∀ ms : MicState,
      runLoop (t1 ++ t2) ms
        = ((runLoop t2 (runLoop t1 ms).1).1,
           (runLoop t1 ms).2 ++ (runLoop t2 (runLoop t1 ms).1).2) := by
  induction t1 with
  | nil => intro ms; simp [runLoop]
  | cons e rest ih =>
    intro ms
    obtain ⟨st, frame, vad⟩ := e
    simp only [List.cons_append, runLoop, List.append_eq, ih, List.append_assoc]

/-! Per-branch evaluation lemmas for iterations whose snapshot is
`AwaitSpeech` with zero cooldown (last_was_speaking false). -/

theorem li_idle_voiced_low (vr uv q : Nat) (aq : List (List Int))
    (hvr : vr + 1 < start_trigger) :
    loop_iter
      { in_speech := false
        voiced_run := vr
        unvoiced_run := uv
        utterance := []
        preroll := List.replicate q (0 : Int)
        ignore_frames := 0
        last_was_speaking := false
        audio_q := aq }
      SMState.AwaitSpeech zf true
    = ({ in_speech := false
         voiced_run := vr + 1
         unvoiced_run := uv
         utterance := []
         preroll := List.replicate (min (q + 320) 4800) (0 : Int)
         ignore_frames := 0
         last_was_speaking := false
         audio_q := aq },
       [], none) := by
  have hne : ¬(SMState.AwaitSpeech = SMState.Speaking) := by decide
  have hdec : decide (SMState.AwaitSpeech = SMState.Speaking) = false := by decide
  have hmp : max_preroll_samples = 4800 := rfl
  have hst : start_trigger = 3 := rfl
  simp only [loop_iter, hne, hdec, zf, hmp, hst, cooldown_frames,
    List.append_replicate_replicate, List.length_replicate,
    Bool.false_eq_true, Bool.true_eq_false, false_and, and_false, if_false,
    false_or, or_false, eq_self_iff_true, if_true, lt_self_iff_false, decide_False]
  rw [List.drop_replicate]
  rw [if_neg (show ¬(3 ≤ vr + 1) by omega)]
  by_cases hq : (4800 : Nat) < q + 320
  · have e2 : min (q + 320) 4800 = 4800 := by omega
    have e3 : q + 320 - (q + 320 - 4800) = 4800 := by omega
    rw [e2, e3, if_pos hq]
  · have e2 : min (q + 320) 4800 = q + 320 := by omega
    rw [e2, if_neg hq]

theorem li_idle_voiced_start (vr uv q : Nat) (aq : List (List Int))
    (hvr : start_trigger ≤ vr + 1) :
    loop_iter
      { in_speech := false
        voiced_run := vr
        unvoiced_run := uv
        utterance := []
        preroll := List.replicate q (0 : Int)
        ignore_frames := 0
        last_was_speaking := false
        audio_q := aq }
      SMState.AwaitSpeech zf true
    = ({ in_speech := true
         voiced_run := 0
         unvoiced_run := 0
         utterance := List.replicate (min (q + 320) 4800) (0 : Int)
         preroll := List.replicate (min (q + 320) 4800) (0 : Int)
         ignore_frames := 0
         last_was_speaking := false
         audio_q := aq },
       [SMEvent.SpeechStart], none) := by
  have hne : ¬(SMState.AwaitSpeech = SMState.Speaking) := by decide
  have hdec : decide (SMState.AwaitSpeech = SMState.Speaking) = false := by decide
  have hmp : max_preroll_samples = 4800 := rfl
  have hst : start_trigger = 3 := rfl
  have hsp : stop_trigger = 20 := rfl
  have hmu : min_utt_samples = 3200 := rfl
  simp only [loop_iter, hne, hdec, zf, hmp, hst, hsp, hmu, cooldown_frames,
    List.append_replicate_replicate, List.length_replicate,
    Bool.false_eq_true, Bool.true_eq_false, false_and, and_false, if_false,
    false_or, or_false, eq_self_iff_true, if_true, lt_self_iff_false, decide_False]
  rw [List.drop_replicate]
  rw [if_pos (show 3 ≤ vr + 1 by omega)]
  by_cases hq : (4800 : Nat) < q + 320
  · have e2 : min (q + 320) 4800 = 4800 := by omega
    have e3 : q + 320 - (q + 320 - 4800) = 4800 := by omega
    rw [e2, e3, if_pos hq]
  · have e2 : min (q + 320) 4800 = q + 320 := by omega
    rw [e2, if_neg hq]

theorem li_speech_voiced (vr m q : Nat) (aq : List (List Int)) :
    loop_iter
      { in_speech := true
        voiced_run := vr
        unvoiced_run := 0
        utterance := List.replicate m (0 : Int)
        preroll := List.replicate q (0 : Int)
        ignore_frames := 0
        last_was_speaking := false
        audio_q := aq }
      SMState.AwaitSpeech zf true
    = ({ in_speech := true
         voiced_run := vr
         unvoiced_run := 0
         utterance := List.replicate (m + 320) (0 : Int)
         preroll := List.replicate (min (q + 320) 4800) (0 : Int)
         ignore_frames := 0
         last_was_speaking := false
         audio_q := aq },
       [], none) := by
  have hne : ¬(SMState.AwaitSpeech = SMState.Speaking) := by decide
  have hdec : decide (SMState.AwaitSpeech = SMState.Speaking) = false := by decide
  have hmp : max_preroll_samples = 4800 := rfl
  have hst : start_trigger = 3 := rfl
  have hsp : stop_trigger = 20 := rfl
  have hmu : min_utt_samples = 3200 := rfl
  simp only [loop_iter, hne, hdec, zf, hmp, hst, hsp, hmu, cooldown_frames,
    List.append_replicate_replicate, List.length_replicate,
    Bool.false_eq_true, Bool.true_eq_false, false_and, and_false, if_false,
    false_or, or_false, eq_self_iff_true, if_true, lt_self_iff_false, decide_False]
  rw [List.drop_replicate]
  rw [if_neg (show ¬((20:Nat) ≤ 0) by omega)]
  by_cases hq : (4800 : Nat) < q + 320
  · have e2 : min (q + 320) 4800 = 4800 := by omega
    have e3 : q + 320 - (q + 320 - 4800) = 4800 := by omega
    rw [e2, e3, if_pos hq]
  · have e2 : min (q + 320) 4800 = q + 320 := by omega
    rw [e2, if_neg hq]

theorem li_speech_unvoiced (vr j m q : Nat) (aq : List (List Int))
    (hj : j + 1 < stop_trigger) :
    loop_iter
      { in_speech := true
        voiced_run := vr
        unvoiced_run := j
        utterance := List.replicate m (0 : Int)
        preroll := List.replicate q (0 : Int)
        ignore_frames := 0
        last_was_speaking := false
        audio_q := aq }
      SMState.AwaitSpeech zf false
    = ({ in_speech := true
         voiced_run := vr
         unvoiced_run := j + 1
         utterance := List.replicate (m + 320) (0 : Int)
         preroll := List.replicate (min (q + 320) 4800) (0 : Int)
         ignore_frames := 0
         last_was_speaking := false
         audio_q := aq },
       [], none) := by
  have hj20 : ¬((20:Nat) ≤ j + 1) := by
    have := hj
    simp only [stop_trigger] at this
    omega
  have hne : ¬(SMState.AwaitSpeech = SMState.Speaking) := by decide
  have hdec : decide (SMState.AwaitSpeech = SMState.Speaking) = false := by decide
  have hmp : max_preroll_samples = 4800 := rfl
  have hst : start_trigger = 3 := rfl
  have hsp : stop_trigger = 20 := rfl
  have hmu : min_utt_samples = 3200 := rfl
  simp only [loop_iter, hne, hdec, zf, hmp, hst, hsp, hmu, cooldown_frames,
    List.append_replicate_replicate, List.length_replicate,
    Bool.false_eq_true, Bool.true_eq_false, false_and, and_false, if_false,
    false_or, or_false, eq_self_iff_true, if_true, lt_self_iff_false, decide_False]
  rw [List.drop_replicate]
  rw [if_neg hj20]
  by_cases hq : (4800 : Nat) < q + 320
  · have e2 : min (q + 320) 4800 = 4800 := by omega
    have e3 : q + 320 - (q + 320 - 4800) = 4800 := by omega
    rw [e2, e3, if_pos hq]
  · have e2 : min (q + 320) 4800 = q + 320 := by omega
    rw [e2, if_neg hq]

theorem li_speech_finalize (vr m q : Nat) (aq : List (List Int)) :
    loop_iter
      { in_speech := true
        voiced_run := vr
        unvoiced_run := 19
        utterance := List.replicate m (0 : Int)
        preroll := List.replicate q (0 : Int)
        ignore_frames := 0
        last_was_speaking := false
        audio_q := aq }
      SMState.AwaitSpeech zf false
    = ({ in_speech := false
         voiced_run := vr
         unvoiced_run := 0
         utterance := []
         preroll := List.replicate (min (q + 320) 4800) (0 : Int)
         ignore_frames := 0
         last_was_speaking := false
         audio_q := if 3200 ≤ m + 320 then [List.replicate (m + 320) (0 : Int)] else aq },
       [SMEvent.SpeechEndQueued],
       if 3200 ≤ m + 320 then some (List.replicate (m + 320) (0 : Int)) else none) := by
  have hne : ¬(SMState.AwaitSpeech = SMState.Speaking) := by decide
  have hdec : decide (SMState.AwaitSpeech = SMState.Speaking) = false := by decide
  have hmp : max_preroll_samples = 4800 := rfl
  have hst : start_trigger = 3 := rfl
  have hsp : stop_trigger = 20 := rfl
  have hmu : min_utt_samples = 3200 := rfl
  simp only [loop_iter, hne, hdec, zf, hmp, hst, hsp, hmu, cooldown_frames,
    List.append_replicate_replicate, List.length_replicate,
    Bool.false_eq_true, Bool.true_eq_false, false_and, and_false, if_false,
    false_or, or_false, eq_self_iff_true, if_true, lt_self_iff_false, decide_False]
  rw [List.drop_replicate]
  rw [if_pos (show (20:Nat) ≤ 19 + 1 by omega)]
  by_cases hq : (4800 : Nat) < q + 320
  · have e2 : min (q + 320) 4800 = 4800 := by omega
    have e3 : q + 320 - (q + 320 - 4800) = 4800 := by omega
    rw [e2, e3, if_pos hq]
  · have e2 : min (q + 320) 4800 = q + 320 := by omega
    rw [e2, if_neg hq]

/-- Folding `n` voiced frames while in speech: the utterance grows by 320
samples per frame, the pre-roll ring saturates at 4800 samples. -/
theorem runLoop_voiced (n : Nat) :
    ∀ (vr m q : Nat) (aq : List (List Int)), q ≤ 4800 →
      runLoop (List.replicate n (SMState.AwaitSpeech, zf, true))
        { in_speech := true
          voiced_run := vr
          unvoiced_run := 0
          utterance := List.replicate m (0 : Int)
          preroll := List.replicate q (0 : Int)
          ignore_frames := 0
          last_was_speaking := false
          audio_q := aq }
      = ({ in_speech := true
           voiced_run := vr
           unvoiced_run := 0
           utterance := List.replicate (m + 320 * n) (0 : Int)
           preroll := List.replicate (min (q + 320 * n) 4800) (0 : Int)
           ignore_frames := 0
           last_was_speaking := false
           audio_q := aq }, []) := by
  induction n with
  | zero =>
    intro vr m q aq hq
    have e1 : m + 320 * 0 = m := by omega
    have e2 : min (q + 320 * 0) 4800 = q := by omega
    rw [e1, e2]
    rfl
  | succ n ih =>
    intro vr m q aq hq
    rw [List.replicate_succ]
    simp only [runLoop]
    rw [li_speech_voiced]
    dsimp only
    rw [ih vr (m + 320) (min (q + 320) 4800) aq (by omega)]
    have e1 : m + 320 + 320 * n = m + 320 * (n + 1) := by omega
    have e2 : min (min (q + 320) 4800 + 320 * n) 4800 = min (q + 320 * (n + 1)) 4800 := by
      omega
    rw [e1, e2]
    rfl

/-- Folding `k < 20` unvoiced frames while in speech: the unvoiced run
grows, the utterance keeps accumulating. -/
theorem runLoop_unvoiced (k : Nat) :
    ∀ (vr j m q : Nat) (aq : List (List Int)), j + k ≤ 19 → q ≤ 4800 →
      runLoop (List.replicate k (SMState.AwaitSpeech, zf, false))
        { in_speech := true
          voiced_run := vr
          unvoiced_run := j
          utterance := List.replicate m (0 : Int)
          preroll := List.replicate q (0 : Int)
          ignore_frames := 0
          last_was_speaking := false
          audio_q := aq }
      = ({ in_speech := true
           voiced_run := vr
           unvoiced_run := j + k
           utterance := List.replicate (m + 320 * k) (0 : Int)
           preroll := List.replicate (min (q + 320 * k) 4800) (0 : Int)
           ignore_frames := 0
           last_was_speaking := false
           audio_q := aq }, []) := by
  induction k with
  | zero =>
    intro vr j m q aq hk hq
    have e1 : m + 320 * 0 = m := by omega
    have e2 : min (q + 320 * 0) 4800 = q := by omega
    have e3 : j + 0 = j := by omega
    rw [e1, e2, e3]
    rfl
  | succ k ih =>
    intro vr j m q aq hk hq
    rw [List.replicate_succ]
    simp only [runLoop]
    rw [li_speech_unvoiced vr j m q aq (by simp only [stop_trigger]; omega)]
    dsimp only
    rw [ih vr (j + 1) (m + 320) (min (q + 320) 4800) aq (by omega) (by omega)]
    have e1 : m + 320 + 320 * k = m + 320 * (k + 1) := by omega
    have e2 : min (min (q + 320) 4800 + 320 * k) 4800 = min (q + 320 * (k + 1)) 4800 := by
      omega
    have e3 : j + 1 + k = j + (k + 1) := by omega
    rw [e1, e2, e3]
    rfl

/-- The three-frame warm-up from the initial state: the start trigger fires
on the third voiced frame and seeds the utterance with the 960-sample
pre-roll. -/
theorem runLoop_warmup :
    runLoop (List.replicate 3 (SMState.AwaitSpeech, zf, true)) initMic
      = ({ in_speech := true
           voiced_run := 0
           unvoiced_run := 0
           utterance := List.replicate 960 (0 : Int)
           preroll := List.replicate 960 (0 : Int)
           ignore_frames := 0
           last_was_speaking := false
           audio_q := [] }, []) := by
  have h0 : initMic
      = { in_speech := false
          voiced_run := 0
          unvoiced_run := 0
          utterance := []
          preroll := List.replicate 0 (0 : Int)
          ignore_frames := 0
          last_was_speaking := false
          audio_q := [] } := rfl
  have hrep : List.replicate 3 (SMState.AwaitSpeech, zf, true)
      = (SMState.AwaitSpeech, zf, true) :: ((SMState.AwaitSpeech, zf, true)
        :: ((SMState.AwaitSpeech, zf, true) :: [])) := rfl
  rw [h0, hrep]
  simp only [runLoop]
  rw [li_idle_voiced_low 0 0 0 [] (by simp only [start_trigger]; omega)]
  dsimp only
  rw [show min (0 + 320) 4800 = 320 by omega]
  rw [li_idle_voiced_low 1 0 320 [] (by simp only [start_trigger]; omega)]
  dsimp only
  rw [show min (320 + 320) 4800 = 640 by omega]
  rw [li_idle_voiced_start 2 0 640 [] (by simp only [start_trigger]; omega)]
  dsimp only
  rw [show min (640 + 320) 4800 = 960 by omega]
  rfl

/-- Evaluation of the first 523 voiced frames of the C4 trace. -/
theorem c4_phase12 :
    runLoop (List.replicate 3 (SMState.AwaitSpeech, zf, true)
        ++ List.replicate 520 (SMState.AwaitSpeech, zf, true)) initMic
      = ({ in_speech := true
           voiced_run := 0
           unvoiced_run := 0
           utterance := List.replicate 167360 (0 : Int)
           preroll := List.replicate 4800 (0 : Int)
           ignore_frames := 0
           last_was_speaking := false
           audio_q := [] }, []) := by
  rw [runLoop_append, runLoop_warmup]
  dsimp only
  rw [runLoop_voiced 520 0 960 960 [] (by omega)]
  rw [show (960 + 320 * 520 : Nat) = 167360 by norm_num]
  rw [show min (960 + 320 * 520) 4800 = 4800 by norm_num]
  rfl

/-- Evaluation of the 19 silent frames that follow. -/
theorem c4_phase3 :
    runLoop (List.replicate 19 (SMState.AwaitSpeech, zf, false))
      { in_speech := true
        voiced_run := 0
        unvoiced_run := 0
        utterance := List.replicate 167360 (0 : Int)
        preroll := List.replicate 4800 (0 : Int)
        ignore_frames := 0
        last_was_speaking := false
        audio_q := [] }
      = ({ in_speech := true
           voiced_run := 0
           unvoiced_run := 19
           utterance := List.replicate 173440 (0 : Int)
           preroll := List.replicate 4800 (0 : Int)
           ignore_frames := 0
           last_was_speaking := false
           audio_q := [] }, []) := by
  rw [runLoop_unvoiced 19 0 0 167360 4800 [] (by omega) (by omega)]
  rw [show (167360 + 320 * 19 : Nat) = 173440 by norm_num]
  rw [show min (4800 + 320 * 19) 4800 = 4800 by norm_num]

/-- Evaluation of the final silent frame: finalize and enqueue. -/
theorem c4_phase4 :
    runLoop [(SMState.AwaitSpeech, zf, false)]
      { in_speech := true
        voiced_run := 0
        unvoiced_run := 19
        utterance := List.replicate 173440 (0 : Int)
        preroll := List.replicate 4800 (0 : Int)
        ignore_frames := 0
        last_was_speaking := false
        audio_q := [] }
      = ({ in_speech := false
           voiced_run := 0
           unvoiced_run := 0
           utterance := []
           preroll := List.replicate 4800 (0 : Int)
           ignore_frames := 0
           last_was_speaking := false
           audio_q := [List.replicate 173760 (0 : Int)] },
         [List.replicate 173760 (0 : Int)]) := by
  simp only [runLoop]
  rw [li_speech_finalize 0 173440 4800 []]
  dsimp only
  rw [if_pos (show (3200 : Nat) ≤ 173440 + 320 by norm_num)]
  rw [if_pos (show (3200 : Nat) ≤ 173440 + 320 by norm_num)]
  rw [show min (4800 + 320) 4800 = 4800 by norm_num]
  rw [show (173440 + 320 : Nat) = 173760 by norm_num]
  rfl

/-- Full evaluation of the C4 trace: a single utterance of 173760 samples
(10.86 s) is enqueued. -/
theorem c4_run_eval :
    runLoop c4Trace initMic
      = ({ in_speech := false
           voiced_run := 0
           unvoiced_run := 0
           utterance := []
           preroll := List.replicate 4800 (0 : Int)
           ignore_frames := 0
           last_was_speaking := false
           audio_q := [List.replicate 173760 (0 : Int)] },
         [List.replicate 173760 (0 : Int)]) := by
  have ht : c4Trace
      = (List.replicate 3 (SMState.AwaitSpeech, zf, true)
          ++ List.replicate 520 (SMState.AwaitSpeech, zf, true))
        ++ (List.replicate 19 (SMState.AwaitSpeech, zf, false)
          ++ [(SMState.AwaitSpeech, zf, false)]) := by
    rw [c4Trace, ← List.append_assoc]
  rw [ht, runLoop_append, c4_phase12]
  dsimp only
  rw [runLoop_append, c4_phase3]
  dsimp only
  rw [c4_phase4]
  rfl

/-- **C4** (counterexample): the code enforces no 10-second maximum — the
`reserve(sr * 10)` is only a capacity hint.  Folding 543 frames of
continuous speech from the initial state enqueues a single utterance of
173760 samples = 10.86 s > 10 s (160000 samples). -/
theorem c4_counterexample :
    ((runLoop c4Trace initMic).2).map List.length = [173760] ∧
    10 * 16000 < 173760 := by
  rw [c4_run_eval]
  refine ⟨?_, by omega⟩
  rw [List.map_cons, List.map_nil, List.length_replicate]

/-- The pre-roll ring never exceeds 15 frames after an update. -/
theorem preroll2_le (pr frame : List Int) :
    (if max_preroll_samples < (pr ++ frame).length then
       (pr ++ frame).drop ((pr ++ frame).length - max_preroll_samples)
     else pr ++ frame).length ≤ max_preroll_samples := by
  split
  · next h => rw [List.length_drop]; omega
  · next h => omega

theorem runLoop_singleton (ms : MicState) (st : SMState) (f : List Int) (v : Bool) :
    runLoop [(st, f, v)] ms
      = ((loop_iter ms st f v).1,
         match (loop_iter ms st f v).2.2 with | some u => [u] | none => []) := by
  cases h : (loop_iter ms st f v).2.2 with
  | none => simp [runLoop, h]
  | some u => simp [runLoop, h]

/-- Folding one more iteration input steps the capture state by `loop_iter`. -/
theorem stateAt_snoc (tr : List (SMState × List Int × Bool))
    (e : SMState × List Int × Bool) :
    stateAt (tr ++ [e]) = (loop_iter (stateAt tr) e.1 e.2.1 e.2.2).1 := by
  obtain ⟨st, f, v⟩ := e
  simp only [stateAt]
  rw [runLoop_append, runLoop_singleton]

/-- A final iteration that enqueues nothing adds no collected utterance. -/
theorem outs_snoc_none (tr : List (SMState × List Int × Bool))
    (e : SMState × List Int × Bool)
    (h : (loop_iter (stateAt tr) e.1 e.2.1 e.2.2).2.2 = none) :
    (runLoop (tr ++ [e]) initMic).2 = (runLoop tr initMic).2 := by
  obtain ⟨st, f, v⟩ := e
  simp only [stateAt] at h
  rw [runLoop_append, runLoop_singleton]
  dsimp only
  rw [h]
  simp

/-- A final iteration that enqueues `u` appends exactly `u`. -/
theorem outs_snoc_some (tr : List (SMState × List Int × Bool))
    (e : SMState × List Int × Bool) (u : List Int)
    (h : (loop_iter (stateAt tr) e.1 e.2.1 e.2.2).2.2 = some u) :
    (runLoop (tr ++ [e]) initMic).2 = (runLoop tr initMic).2 ++ [u] := by
  obtain ⟨st, f, v⟩ := e
  simp only [stateAt] at h
  rw [runLoop_append, runLoop_singleton]
  dsimp only
  rw [h]

/-- Every branch of an iteration leaves at most 15 frames of pre-roll. -/
theorem loop_iter_preroll_le (ms : MicState) (st : SMState)
    (f : List Int) (v : Bool) :
    (((loop_iter ms st f v).1).preroll).length ≤ max_preroll_samples := by
  simp only [loop_iter]
  by_cases hg : st = SMState.Speaking ∨
      0 < (if ms.last_was_speaking = true ∧ st ≠ SMState.Speaking
           then cooldown_frames else ms.ignore_frames)
  · rw [if_pos hg]
    simp
  · rw [if_neg hg]
    by_cases hin : ms.in_speech = false
    · rw [if_pos hin]
      by_cases hstart : start_trigger ≤ (if v = true then ms.voiced_run + 1 else 0)
      · rw [if_pos hstart]; exact preroll2_le ms.preroll f
      · rw [if_neg hstart]; exact preroll2_le ms.preroll f
    · rw [if_neg hin]
      by_cases hstop : stop_trigger ≤ (if v = false then ms.unvoiced_run + 1 else 0)
      · rw [if_pos hstop]; exact preroll2_le ms.preroll f
      · rw [if_neg hstop]; exact preroll2_le ms.preroll f

/-- The pre-roll of every reachable capture state is at most 15 frames. -/
theorem stateAt_preroll_le (tr : List (SMState × List Int × Bool)) :
    (((stateAt tr).preroll)).length ≤ max_preroll_samples := by
  induction tr using List.reverseRecOn with
  | nil => simp [stateAt, runLoop, initMic]
  | append_singleton tr e _ => rw [stateAt_snoc]; exact loop_iter_preroll_le _ _ _ _

/-- If an iteration ends in speech, it either just seeded the utterance with
the pre-roll (coming from idle), or it was already in speech, appended the
whole captured frame to the utterance, and enqueued nothing. -/
theorem loop_iter_in_speech_cases (ms : MicState) (st : SMState)
    (f : List Int) (v : Bool)
    (h : ((loop_iter ms st f v).1).in_speech = true) :
    (ms.in_speech = false ∧
      ((loop_iter ms st f v).1).utterance = ((loop_iter ms st f v).1).preroll) ∨
    (ms.in_speech = true ∧
      ((loop_iter ms st f v).1).utterance = ms.utterance ++ f ∧
      (loop_iter ms st f v).2.2 = none) := by
  simp only [loop_iter] at h ⊢
  by_cases hg : st = SMState.Speaking ∨
      0 < (if ms.last_was_speaking = true ∧ st ≠ SMState.Speaking
           then cooldown_frames else ms.ignore_frames)
  · rw [if_pos hg] at h
    simp at h
  · rw [if_neg hg] at h ⊢
    by_cases hin : ms.in_speech = false
    · rw [if_pos hin] at h ⊢
      by_cases hstart : start_trigger ≤ (if v = true then ms.voiced_run + 1 else 0)
      · rw [if_pos hstart]
        exact Or.inl ⟨hin, rfl⟩
      · rw [if_neg hstart] at h
        simp [hin] at h
    · rw [if_neg hin] at h ⊢
      have hin' : ms.in_speech = true := by revert hin; cases ms.in_speech <;> simp
      by_cases hstop : stop_trigger ≤ (if v = false then ms.unvoiced_run + 1 else 0)
      · rw [if_pos hstop] at h
        simp at h
      · rw [if_neg hstop]
        exact Or.inr ⟨hin', rfl, rfl⟩

/-- An iteration enqueues `u` only from speech, with `u` the running
utterance plus the captured frame, and only above the 200 ms minimum. -/
theorem loop_iter_enq_cases (ms : MicState) (st : SMState)
    (f : List Int) (v : Bool) (u : List Int)
    (h : (loop_iter ms st f v).2.2 = some u) :
    ms.in_speech = true ∧ u = ms.utterance ++ f ∧ min_utt_samples ≤ u.length := by
  simp only [loop_iter] at h
  by_cases hg : st = SMState.Speaking ∨
      0 < (if ms.last_was_speaking = true ∧ st ≠ SMState.Speaking
           then cooldown_frames else ms.ignore_frames)
  · rw [if_pos hg] at h
    simp at h
  · rw [if_neg hg] at h
    by_cases hin : ms.in_speech = false
    · rw [if_pos hin] at h
      by_cases hstart : start_trigger ≤ (if v = true then ms.voiced_run + 1 else 0)
      · rw [if_pos hstart] at h; simp at h
      · rw [if_neg hstart] at h; simp at h
    · rw [if_neg hin] at h
      have hin' : ms.in_speech = true := by revert hin; cases ms.in_speech <;> simp
      by_cases hstop : stop_trigger ≤ (if v = false then ms.unvoiced_run + 1 else 0)
      · rw [if_pos hstop] at h
        dsimp only at h
        by_cases henq : min_utt_samples ≤ (ms.utterance ++ f).length
        · rw [if_pos henq] at h
          injection h with h'
          exact ⟨hin', h'.symm, by rw [← h']; exact henq⟩
        · rw [if_neg henq] at h
          simp at h
      · rw [if_neg hstop] at h; simp at h

/-- History invariant: whenever the loop is in speech, the trace splits as
an idle prefix `t1`, a seeding iteration `e1` whose utterance is exactly
its pre-roll, and an in-speech span `t2` (in speech after every one of its
prefixes) whose frames, appended to that pre-roll, are the utterance. -/
theorem hinv_all :
    ∀ tr : List (SMState × List Int × Bool), ((stateAt tr).in_speech) = true →
      ∃ (t1 : List (SMState × List Int × Bool)) (e1 : SMState × List Int × Bool)
        (t2 : List (SMState × List Int × Bool)),
        tr = t1 ++ e1 :: t2 ∧
        ((stateAt t1).in_speech) = false ∧
        ((stateAt (t1 ++ [e1])).in_speech) = true ∧
        (stateAt (t1 ++ [e1])).utterance = (stateAt (t1 ++ [e1])).preroll ∧
        (∀ k, k ≤ t2.length →
          ((stateAt (t1 ++ e1 :: t2.take k)).in_speech) = true) ∧
        (stateAt tr).utterance
          = (stateAt (t1 ++ [e1])).preroll ++ (t2.map (fun e => e.2.1)).flatten := by
  intro tr
  induction tr using List.reverseRecOn with
  | nil =>
    intro h
    simp [stateAt, runLoop, initMic] at h
  | append_singleton tr e ih =>
    intro h
    rw [stateAt_snoc] at h
    rcases loop_iter_in_speech_cases (stateAt tr) e.1 e.2.1 e.2.2 h with
      ⟨hidle, hseed⟩ | ⟨hsp, happ, _⟩
    · refine ⟨tr, e, [], rfl, hidle, ?_, ?_, ?_, ?_⟩
      · rw [stateAt_snoc]; exact h
      · rw [stateAt_snoc]; exact hseed
      · intro k hk
        have hk0 : k = 0 := Nat.le_zero.mp hk
        subst hk0
        show ((stateAt (tr ++ [e])).in_speech) = true
        rw [stateAt_snoc]; exact h
      · rw [stateAt_snoc]
        simp only [List.map_nil, List.flatten_nil, List.append_nil]
        exact hseed
    · obtain ⟨t1, e1, t2, htr, hT1, hS1, hSeedU, hSpan, hU⟩ := ih hsp
      refine ⟨t1, e1, t2 ++ [e], ?_, hT1, hS1, hSeedU, ?_, ?_⟩
      · rw [htr]; simp
      · intro k hk
        by_cases hk2 : k ≤ t2.length
        · rw [List.take_append_of_le_length hk2]
          exact hSpan k hk2
        · have hlen2 : (t2 ++ [e]).length = t2.length + 1 := by
            rw [List.length_append, List.length_cons, List.length_nil]
          have hkk : k = t2.length + 1 := by
            rw [hlen2] at hk; omega
          rw [List.take_of_length_le (le_of_eq (by rw [hlen2, hkk]))]
          have hcomb : t1 ++ e1 :: (t2 ++ [e]) = (t1 ++ e1 :: t2) ++ [e] := by
            simp
          rw [hcomb, ← htr, stateAt_snoc]
          exact h
      · rw [stateAt_snoc, happ, hU]
        simp [List.flatten_append, List.append_assoc]

/-- **C4** (amended): every utterance the audio loop enqueues, over any
iteration-input trace from start-up, has duration at least 200 ms
(3200 samples); it is produced at the end of an in-speech episode
`e1 :: (t2 ++ [e2])` entered from idle, begins with the pre-roll seeded by
`e1` (at most 15 frames = 4800 samples = 300 ms, equal to that iteration's
whole utterance), and consists of exactly that pre-roll followed by the
whole frames captured while in speech; shorter utterances are dropped.
(The claimed 10-second maximum is refuted by the counterexample and does
not appear here.) -/
theorem c4_amended_enqueued_utterances
    (trace : List (SMState × List Int × Bool)) (u : List Int)
    (hu : u ∈ (runLoop trace initMic).2) :
    min_utt_samples ≤ u.length ∧
    ∃ (t1 : List (SMState × List Int × Bool)) (e1 : SMState × List Int × Bool)
      (t2 : List (SMState × List Int × Bool)) (e2 : SMState × List Int × Bool)
      (t3 : List (SMState × List Int × Bool)),
      trace = t1 ++ e1 :: (t2 ++ e2 :: t3) ∧
      ((stateAt t1).in_speech) = false ∧
      ((stateAt (t1 ++ [e1])).in_speech) = true ∧
      (stateAt (t1 ++ [e1])).utterance = (stateAt (t1 ++ [e1])).preroll ∧
      (((stateAt (t1 ++ [e1])).preroll)).length ≤ max_preroll_samples ∧
      (∀ k, k ≤ t2.length →
        ((stateAt (t1 ++ e1 :: t2.take k)).in_speech) = true) ∧
      u = (stateAt (t1 ++ [e1])).preroll
            ++ ((t2 ++ [e2]).map (fun e => e.2.1)).flatten ∧
      (loop_iter (stateAt (t1 ++ e1 :: t2)) e2.1 e2.2.1 e2.2.2).2.2 = some u := by
  revert hu
  induction trace using List.reverseRecOn generalizing u with
  | nil =>
    intro hu
    simp [runLoop] at hu
  | append_singleton tr e ih =>
    intro hu
    cases hopt : (loop_iter (stateAt tr) e.1 e.2.1 e.2.2).2.2 with
    | none =>
      rw [outs_snoc_none tr e hopt] at hu
      obtain ⟨hlen, t1, e1, t2, e2, t3, hEq, hA, hB, hC, hD, hE, hF, hG⟩ := ih u hu
      exact ⟨hlen, t1, e1, t2, e2, t3 ++ [e], by rw [hEq]; simp,
        hA, hB, hC, hD, hE, hF, hG⟩
    | some u0 =>
      rw [outs_snoc_some tr e u0 hopt] at hu
      rcases List.mem_append.mp hu with hold | hnew
      · obtain ⟨hlen, t1, e1, t2, e2, t3, hEq, hA, hB, hC, hD, hE, hF, hG⟩ :=
          ih u hold
        exact ⟨hlen, t1, e1, t2, e2, t3 ++ [e], by rw [hEq]; simp,
          hA, hB, hC, hD, hE, hF, hG⟩
      · have hu0 : u = u0 := List.mem_singleton.mp hnew
        subst hu0
        obtain ⟨hsp, hueq, hlen⟩ :=
          loop_iter_enq_cases (stateAt tr) e.1 e.2.1 e.2.2 u hopt
        obtain ⟨t1, e1, t2, htr, hT1, hS1, hSeedU, hSpan, hU⟩ := hinv_all tr hsp
        refine ⟨hlen, t1, e1, t2, e, [], ?_, hT1, hS1, hSeedU,
          stateAt_preroll_le (t1 ++ [e1]), hSpan, ?_, ?_⟩
        · rw [htr]; simp
        · rw [hueq, hU]
          simp [List.flatten_append, List.append_assoc]
        · rw [← htr]
          exact hopt

/-- Witness for the amended C4 at the concrete 543-frame trace: the single
enqueued 173760-sample utterance admits the idle/seed/in-speech trace
decomposition. -/
theorem c4_amended_enqueued_utterances_witness :
    min_utt_samples ≤ (List.replicate 173760 (0 : Int)).length ∧
    ∃ (t1 : List (SMState × List Int × Bool)) (e1 : SMState × List Int × Bool)
      (t2 : List (SMState × List Int × Bool)) (e2 : SMState × List Int × Bool)
      (t3 : List (SMState × List Int × Bool)),
      c4Trace = t1 ++ e1 :: (t2 ++ e2 :: t3) ∧
      ((stateAt t1).in_speech) = false ∧
      ((stateAt (t1 ++ [e1])).in_speech) = true ∧
      (stateAt (t1 ++ [e1])).utterance = (stateAt (t1 ++ [e1])).preroll ∧
      (((stateAt (t1 ++ [e1])).preroll)).length ≤ max_preroll_samples ∧
      (∀ k, k ≤ t2.length →
        ((stateAt (t1 ++ e1 :: t2.take k)).in_speech) = true) ∧
      List.replicate 173760 (0 : Int)
        = (stateAt (t1 ++ [e1])).preroll
            ++ ((t2 ++ [e2]).map (fun e => e.2.1)).flatten ∧
      (loop_iter (stateAt (t1 ++ e1 :: t2)) e2.1 e2.2.1 e2.2.2).2.2
        = some (List.replicate 173760 (0 : Int)) :=
  c4_amended_enqueued_utterances c4Trace (List.replicate 173760 (0 : Int))
    (by rw [c4_run_eval]; exact List.mem_singleton.mpr rfl)

/-- **C5.** The utterance queue holds at most one utterance under any
interleaving of its three atomic operations (producer enqueue =
clear-then-push, main.cpp 519-522; consumer take-newest-and-clear,
main.cpp 340-342; gate clear, main.cpp 468-469), and the audio loop alone
also preserves the bound from start-up. -/
theorem c5_queue_capacity_one :
    (∀ ops : List QOp, (ops.foldl qApply []).length ≤ 1) ∧
    (∀ trace, ((runLoop trace initMic).1.audio_q).length ≤ 1) := by
  constructor
  · have aux : ∀ (ops : List QOp) (q : List (List Int)), q.length ≤ 1 →
        (ops.foldl qApply q).length ≤ 1 := by
      intro ops
      induction ops with
      | nil => intro q h; exact h
      | cons op rest ih =>
        intro q h
        refine ih (qApply q op) ?_
        cases op <;> simp [qApply]
    intro ops; exact aux ops [] (by simp)
  · have step : ∀ (ms : MicState) (st : SMState) (frame : List Int) (vad : Bool),
        ms.audio_q.length ≤ 1 → ((loop_iter ms st frame vad).1.audio_q).length ≤ 1 := by
      intro ms st frame vad h
      simp only [loop_iter]
      by_cases hg : st = SMState.Speaking ∨
          0 < (if ms.last_was_speaking = true ∧ st ≠ SMState.Speaking
               then cooldown_frames else ms.ignore_frames)
      · rw [if_pos hg]; simp
      · rw [if_neg hg]
        by_cases hin : ms.in_speech = false
        · rw [if_pos hin]
          by_cases hstart : start_trigger ≤ (if vad = true then ms.voiced_run + 1 else 0)
          · rw [if_pos hstart]; exact h
          · rw [if_neg hstart]; exact h
        · rw [if_neg hin]
          by_cases hstop : stop_trigger ≤ (if vad = false then ms.unvoiced_run + 1 else 0)
          · rw [if_pos hstop]
            by_cases henq : min_utt_samples ≤ (ms.utterance ++ frame).length
            · rw [if_pos henq]; simp
            · rw [if_neg henq]; exact h
          · rw [if_neg hstop]; exact h
    have aux : ∀ (trace : List (SMState × List Int × Bool)) (ms : MicState),
        ms.audio_q.length ≤ 1 → ((runLoop trace ms).1.audio_q).length ≤ 1 := by
      intro trace
      induction trace with
      | nil => intro ms h; exact h
      | cons e rest ih =>
        intro ms h
        obtain ⟨st, frame, vad⟩ := e
        exact ih _ (step ms st frame vad h)
    intro trace; exact aux trace initMic (by simp [initMic])

/-- **C6.** A non-zero transcriber return yields empty text; a trimmed
transcript shorter than 2 bytes (or the sentinel) dispatches
`NoCommand("blank audio")` and enqueues nothing; and a command is enqueued
only when an invocation prefix matched and its trimmed remainder is
non-empty. -/
theorem c6_blank_audio_handling :
    (∀ (pcm : List Int) (rc : Int) (segs : List (List Nat)),
      rc ≠ 0 → postTranscribe pcm rc segs = []) ∧
    (∀ txt : List Nat, (trimWs txt).length < 2 ∨ trimWs txt = blankSentinel →
      asrStage txt = AsrOutcome.noCommand "blank audio" ∧
      asrEnqueues (asrStage txt) = []) ∧
    (∀ (txt c : List Nat), asrEnqueues (asrStage txt) = [c] →
      ∃ r, strip_invocation (trimWs txt) = some r ∧ c = trimWs r ∧ c ≠ []) := by
  refine ⟨?_, ?_, ?_⟩
  · intro pcm rc segs hrc
    unfold postTranscribe
    by_cases hp : pcm = []
    · rw [if_pos hp]
    · rw [if_neg hp, if_pos hrc]
  · intro txt h
    have e : asrStage txt = AsrOutcome.noCommand "blank audio" := by
      unfold asrStage
      rw [if_pos h]
    exact ⟨e, by rw [e]; rfl⟩
  · intro txt c h
    unfold asrStage at h
    by_cases hb : (trimWs txt).length < 2 ∨ trimWs txt = blankSentinel
    · rw [if_pos hb] at h
      simp [asrEnqueues] at h
    · rw [if_neg hb] at h
      cases hs : strip_invocation (trimWs txt) with
      | none => rw [hs] at h; simp [asrEnqueues] at h
      | some r =>
        rw [hs] at h
        dsimp only at h
        by_cases hc : trimWs r = []
        · rw [if_pos hc] at h
          simp [asrEnqueues] at h
        · rw [if_neg hc] at h
          simp only [asrEnqueues, List.cons.injEq, and_true] at h
          exact ⟨r, rfl, h.symm, by rw [h] at hc; exact hc⟩

/-- Witness for C6 at concrete inputs: a failed transcription, the
one-byte transcript `"a"`, and the transcript `"edna hello"` whose
enqueued command is `"hello"`. -/
theorem c6_blank_audio_handling_witness :
    postTranscribe [1] 1 [toBytes "hi"] = [] ∧
    (asrStage (toBytes "a") = AsrOutcome.noCommand "blank audio" ∧
      asrEnqueues (asrStage (toBytes "a")) = []) ∧
    (∃ r, strip_invocation (trimWs (toBytes "edna hello")) = some r ∧
      toBytes "hello" = trimWs r ∧ toBytes "hello" ≠ []) :=
  ⟨c6_blank_audio_handling.1 [1] 1 [toBytes "hi"] (by decide),
   c6_blank_audio_handling.2.1 (toBytes "a") (by decide),
   c6_blank_audio_handling.2.2 (toBytes "edna hello") (toBytes "hello") (by decide)⟩

/-- Witness for the amended C2 gate at a concrete cooling-down iteration. -/
theorem c2_amended_gate_witness :
    (loop_iter c2WitState SMState.AwaitSpeech [] true).1.in_speech = false ∧
    (loop_iter c2WitState SMState.AwaitSpeech [] true).1.voiced_run = 0 ∧
    (loop_iter c2WitState SMState.AwaitSpeech [] true).1.unvoiced_run = 0 ∧
    (loop_iter c2WitState SMState.AwaitSpeech [] true).1.utterance = [] ∧
    (loop_iter c2WitState SMState.AwaitSpeech [] true).1.preroll = [] ∧
    (loop_iter c2WitState SMState.AwaitSpeech [] true).1.audio_q = [] ∧
    (loop_iter c2WitState SMState.AwaitSpeech [] true).2.1 = [] ∧
    (loop_iter c2WitState SMState.AwaitSpeech [] true).2.2 = none :=
  c2_amended_gate c2WitState SMState.AwaitSpeech [] true (Or.inr (by decide))

/-- **C10.** From `Boot`, no dispatch sequence reaches `Error` or
`Shutdown`; the `Stop` and `Fail` events (in particular the `Stop`
dispatched on SIGINT shutdown, main.cpp line 533) never change the state. -/
theorem c10_no_error_stop_noop :
    (∀ evs : List SMEvent, runDispatch evs ≠ Error ∧ runDispatch evs ≠ Shutdown) ∧
    (∀ s : SMState, transition s Stop = s ∧ transition s Fail = s) := by
  refine ⟨runDispatch_no_error, ?_⟩
  intro s
  cases s <;> exact ⟨rfl, rfl⟩

end Edna
